import Mathlib

/-!
Verification of the gap_foundry pipeline core against its specification.
The definitions below are shallow embeddings of the Python sources
(`src/gap_foundry/main.py`, `crew.py`, `api.py`): pure string/number logic is
translated directly; external collaborators (the LLM executors, `re` searches
over configurable rule patterns, `json.loads`, `json.dumps`, CrewAI objects,
the filesystem) appear as explicit data or as function parameters.
-/

set_option maxHeartbeats 1000000

namespace GapFoundry

/-! ### Generic string helpers (substring search, used by several functions) -/

/-- Boolean test that `pat` is a prefix of `s` (character lists). -/
def startsWithB : List Char → List Char → Bool
  | [], _ => true
  | _ :: _, [] => false
  | a :: as, b :: bs => a == b && startsWithB as bs

/-- Boolean test that `pat` occurs as a contiguous subsequence of `s`,
mirroring Python `pat in s`. -/
def containsSeq (pat : List Char) : List Char → Bool
  | [] => startsWithB pat []
  | c :: rest => startsWithB pat (c :: rest) || containsSeq pat rest

/-- Python `pat in s` on strings. -/
def strContains (s pat : String) : Bool := containsSeq pat.data s.data

/-- Whitespace characters recognised by the embedded `\s` class
(the ASCII whitespace Python's `re` matches on the inputs in question). -/
def isWs (c : Char) : Bool :=
  c == ' ' || c == '\t' || c == '\n' || c == '\r' || c == '\x0b' || c == '\x0c'

/-! ### Verdict extraction (`main.py::_parse_verdict_from_text`,
`_extract_verdict_from_crew`) and the auto-revise branch
(`main.py::run_gap_foundry_engine`, lines 1368-1406). -/

/-- Case-insensitive prefix test, mirroring `re.IGNORECASE` literal matching. -/
def ciStarts : List Char → List Char → Bool
  | [], _ => true
  | _ :: _, [] => false
  | a :: as, b :: bs => (a.toLower == b.toLower) && ciStarts as bs

/-- The alternation `(LANDING_GO|…|VALIDATION_NO)` of
`_parse_verdict_from_text`, paired with the value after `.upper()` and the
`VALIDATION_ -> LANDING_` replacement. -/
def verdictAlts : List (String × String) :=
  [(("LANDING_GO"), ("LANDING_GO")), (("LANDING_HOLD"), ("LANDING_HOLD")),
   (("LANDING_NO"), ("LANDING_NO")), (("VALIDATION_GO"), ("LANDING_GO")),
   (("VALIDATION_HOLD"), ("LANDING_HOLD")), (("VALIDATION_NO"), ("LANDING_NO"))]

/-- The legacy alternation `(PASS|FAIL)` with its `PASS -> LANDING_GO`,
`FAIL -> LANDING_NO` mapping. -/
def legacyAlts : List (String × String) :=
  [(("PASS"), ("LANDING_GO")), (("FAIL"), ("LANDING_NO"))]

/-- Regex word character, for the `\b` boundary after the alternation. -/
def isWordChar (c : Char) : Bool := c.isAlphanum || c == '_'

/-- The `\b` boundary holds after the matched alternative. -/
def wordBoundaryAfter : List Char → Bool
  | [] => true
  | c :: _ => !isWordChar c

/-- Try the alternatives in order at the current position (regex alternation
is leftmost-alternative first). -/
def matchAltAt : List (String × String) → List Char → Option String
  | [], _ => none
  | (a, v) :: rest, s =>
      if ciStarts a.data s && wordBoundaryAfter (s.drop a.data.length) then some v
      else matchAltAt rest s

/-- Match `VERDICT\s*:\s*(alts)\b` at the current position. -/
def matchVerdictAt (alts : List (String × String)) (s : List Char) : Option String :=
  if ciStarts ("VERDICT").data s then
    match (s.drop 7).dropWhile isWs with
    | c :: r2 => if c == ':' then matchAltAt alts (r2.dropWhile isWs) else none
    | [] => none
  else none

/-- `re.search`: scan left to right for the first matching position. -/
def scanVerdict (alts : List (String × String)) : List Char → Option String
  | [] => none
  | c :: rest =>
      match matchVerdictAt alts (c :: rest) with
      | some v => some v
      | none => scanVerdict alts rest

/-- `main.py::_parse_verdict_from_text`: first the new-format pattern, then
the legacy `PASS|FAIL` fallback; `None` when neither matches. -/
def parseVerdictFromText (text : String) : Option String :=
  if text = "" then none
  else
    match scanVerdict verdictAlts text.data with
    | some v => some v
    | none => scanVerdict legacyAlts text.data

/-- `main.py::_extract_verdict_from_crew`: the three lookup methods (task
output, saved file, crew result) are modelled as an ordered list of available
raw texts; the first text containing a parsable verdict wins, and when none
does the function returns the pair `("UNKNOWN", "")`. -/
def extractVerdictFromSources : List String → String × String
  | [] => (("UNKNOWN"), (""))
  | s :: rest =>
      match parseVerdictFromText s with
      | some v => (v, s)
      | none => extractVerdictFromSources rest

/-- `main.py` line 1388:
`do_revision = (verdict == "LANDING_HOLD") or (verdict == "LANDING_NO" and args.revise_no)`. -/
def doRevision (verdict : String) (reviseNo : Bool) : Bool :=
  verdict == ("LANDING_HOLD") || (verdict == ("LANDING_NO") && reviseNo)

/-- Number of times the revision stage executes in the auto-revise workflow:
it is run once inside the `if do_revision:` block and nowhere else. -/
def revisionStageRuns (verdict : String) (reviseNo : Bool) : Nat :=
  if doRevision verdict reviseNo then 1 else 0

/-- `main.py` lines 1383-1406 (auto-revise path): extract the pass-1 verdict,
optionally run revision, re-extract, and keep `verdict_v2 if verdict_v2 else
verdict` (Python truthiness of the string). -/
def autoReviseFinalVerdict (pass1Sources pass2Sources : List String)
    (reviseNo : Bool) : String :=
  let verdict := (extractVerdictFromSources pass1Sources).1
  if doRevision verdict reviseNo then
    let verdict2 := (extractVerdictFromSources pass2Sources).1
    if verdict2 ≠ ("") then verdict2 else verdict
  else verdict

/-! ### Progress windows (`crew.py::ProgressTracker.STAGE_PROGRESS`,
`on_task_start` / `on_task_end`). -/

/-- `STAGE_PROGRESS.get(stage, (5, 95))`. -/
def stageProgressRange (stage : String) : Nat × Nat :=
  if stage = ("pass1") then (5, 70)
  else if stage = ("revision") then (70, 85)
  else if stage = ("final_report") then (85, 100)
  else (5, 95)

/-- The percent both `on_task_start` and `on_task_end` forward to the external
callback: `base + int((idx / total) * (max - base))` (exact integer floor). -/
def externalProgress (stage : String) (idx total : Nat) : Nat :=
  let pr := stageProgressRange stage
  pr.1 + idx * (pr.2 - pr.1) / total

/-! ### Job store reconciliation (`api.py::_load_jobs`). -/

/-- One persisted job record (the fields of the `jobs[run_id]` dict that the
reconciliation pass reads or writes; remaining fields behave like the
untouched ones shown here). -/
structure JobRecord where
  status : String
  progress : Nat
  currentStep : String
  verdict : Option String
  errorMessage : Option String
  createdAt : String
deriving DecidableEq

/-- The terminal statuses listed in `_load_jobs`. -/
def terminalStatuses : List String := [("completed"), ("failed"), ("pregate_failed")]

/-- The synthetic error message written by `_load_jobs`. -/
def restartInterruptedMessage : String :=
  ("서버 재시작으로 인해 작업이 중단되었습니다. 다시 시도해주세요.")

/-- Per-record reconciliation: a record whose status is not terminal is
forced to `failed` with the restart message; terminal records are untouched. -/
def reconcileRecord (j : JobRecord) : JobRecord :=
  if terminalStatuses.contains j.status then j
  else { j with status := ("failed"), errorMessage := some restartInterruptedMessage }

/-- `api.py::_load_jobs`: reconcile every loaded record. -/
def loadJobs (records : List (String × JobRecord)) : List (String × JobRecord) :=
  records.map (fun p => (p.1, reconcileRecord p.2))

/-! ### Progress recording (`api.py::_update_job_status` and the
file-polling monitor in `run_validation_job.monitor_progress`). -/

/-- The mutable per-run state `_update_job_status` writes (`jobs[run_id]`). -/
structure ApiJob where
  status : String
  progress : Nat
  currentStep : String
deriving DecidableEq

/-- `api.py::_update_job_status`: overwrites status, progress and step
unconditionally (no maximum is tracked). Log/persistence side effects are
not modelled. -/
def updateJobStatus (job : ApiJob) (status : String) (progress : Nat)
    (step : String) : ApiJob :=
  { job with status := status, progress := progress, currentStep := step }

/-- Status chosen from a percent by `run_validation_job.progress_callback`
and by the monitor thread (same thresholds in both). -/
def statusFor (progress : Nat) : String :=
  if progress < 50 then ("researching")
  else if progress < 85 then ("analyzing")
  else ("generating_report")

/-- `monitor_progress.stage_details`: prefix, base percent, complete percent. -/
def stageDetails : List (String × Nat × Nat) :=
  [(("01_"), 8, 15), (("02_"), 16, 22), (("03_"), 23, 32), (("04_"), 33, 42),
   (("05_"), 43, 50), (("06_"), 51, 60), (("07_"), 61, 68), (("08_"), 69, 76),
   (("09_"), 77, 84), (("10_"), 85, 88), (("11_"), 89, 92), (("12_"), 93, 98)]

/-- Completed-file pass of the monitor: for every file whose name starts with
a stage prefix, raise the running percent to that stage's complete percent. -/
def monitorFileProgress : List String → Nat → Nat
  | [], cur => cur
  | f :: rest, cur =>
      monitorFileProgress rest
        (stageDetails.foldl
          (fun acc pd =>
            if startsWithB pd.1.data f.data && pd.2.2 > acc then pd.2.2 else acc) cur)

/-- In-progress-directory pass of the monitor: a directory matching a stage
prefix raises the percent to `base + (complete - base) / 2`. -/
def monitorDirProgress : List String → Nat → Nat
  | [], cur => cur
  | d :: rest, cur =>
      monitorDirProgress rest
        (stageDetails.foldl
          (fun acc pd =>
            if startsWithB pd.1.data d.data && pd.2.1 + (pd.2.2 - pd.2.1) / 2 > acc
            then pd.2.1 + (pd.2.2 - pd.2.1) / 2 else acc) cur)

/-- One polling observation of the monitor: completed files, in-progress
directories, then the file-count estimate `min (15 + 7 * count) 95`. -/
def monitorProgress (files dirs : List String) : Nat :=
  let c1 := monitorFileProgress files 15
  let c2 := monitorDirProgress dirs c1
  if files.length > 0 then
    let fb := 15 + files.length * 7
    if fb > c2 then min fb 95 else c2
  else c2

/-- The monitor thread's guard: it calls `_update_job_status` only when the
freshly computed percent strictly exceeds its own `last_progress`, updating
`last_progress` afterwards. This returns the percents it actually emits over
a sequence of (files, dirs) observations. -/
def monitorEmittedPercents (last : Nat) : List (List String × List String) → List Nat
  | [] => []
  | obs :: rest =>
      if last < monitorProgress obs.1 obs.2 then
        monitorProgress obs.1 obs.2 :: monitorEmittedPercents (monitorProgress obs.1 obs.2) rest
      else monitorEmittedPercents last rest

/-- The nine artifact files `_save_task_outputs` writes for a completed
pass-1 stage (names from `TASK_FILENAME_MAP`). -/
def pass1ArtifactFiles : List String :=
  [("01_경쟁사_발굴.md"), ("02_경쟁사_압축.md"), ("03_채널_분석.md"),
   ("04_가치제안_추출.md"), ("05_채널VP_요약.md"), ("06_빈틈_발굴.md"),
   ("07_리서치_요약.md"), ("08_POV_포지셔닝.md"), ("09_레드팀_검토.md")]

/-- The job record as it stands when the monitor starts. -/
def jobInitial : ApiJob :=
  { status := ("researching"), progress := 5, currentStep := ("리서치 준비 중...") }

/-! ### Revision seeding (`main.py::_load_pass1_outputs_for_revision`). -/

/-- Python `str.lower()` (ASCII case folding, which covers every pattern the
lookup uses). -/
def toLowerStr (s : String) : String := String.mk (s.data.map Char.toLower)

/-- A saved `*.md` artifact of a finished stage: file name plus readable
content; `none` models a file whose read raises. -/
structure MdFile where
  name : String
  content : Option String

/-- `_load_pass1_outputs_for_revision.read_md`: return the content of the
first globbed file whose lowercased name contains the pattern and that reads
without error; otherwise the empty string. -/
def readMd (files : List MdFile) (pat : String) : String :=
  match files with
  | [] => ""
  | f :: rest =>
      if strContains (toLowerStr f.name) (toLowerStr pat) then
        match f.content with
        | some c => c
        | none => readMd rest pat
      else readMd rest pat

/-- Python `a or b` on strings (empty string is falsy). -/
def orStr (a b : String) : String := if a = ("") then b else a

/-- The mapping returned by `_load_pass1_outputs_for_revision`: the four keys
are always present by construction (the function is total — it never
raises). -/
structure Pass1Outputs where
  previous_positioning_output : String
  previous_red_team_output : String
  research_summary : String
  gap_hypotheses : String

/-- `main.py::_load_pass1_outputs_for_revision` over the stage's saved
files. -/
def loadPass1OutputsForRevision (files : List MdFile) : Pass1Outputs :=
  { previous_positioning_output :=
      orStr (readMd files ("create_pov")) (orStr (readMd files ("positioning")) (readMd files ("pov")))
    previous_red_team_output :=
      orStr (readMd files ("red_team_review")) (readMd files ("red_team"))
    research_summary :=
      orStr (readMd files ("summarize")) (readMd files ("summary"))
    gap_hypotheses :=
      orStr (readMd files ("mine_gaps")) (readMd files ("gap")) }

/-- The keyword matches no readable file: every file either does not contain
the pattern in its lowercased name, or fails to read. -/
def noReadableMatch (files : List MdFile) (pat : String) : Prop :=
  ∀ f ∈ files, strContains (toLowerStr f.name) (toLowerStr pat) = true → f.content = none

instance (files : List MdFile) (pat : String) : Decidable (noReadableMatch files pat) := by
  unfold noReadableMatch
  infer_instance

/-! ### PreGate (`main.py::_pregate_check` with the default rules from
`_load_pregate_rules`). The `re.search` primitive is an external collaborator
and is passed in as a `search pattern text` oracle; the rule patterns are the
default rule data. -/

/-- The input fields `_pregate_check` reads. -/
structure PregateInputs where
  idea_one_liner : String
  target_customer : String
  problem_statement : String
  current_alternatives : String

/-- The rule set shape loaded by `_load_pregate_rules`. -/
structure PregateRules where
  minTargetLen : Nat
  minProblemLen : Nat
  minIdeaLen : Nat
  minAltLen : Nat
  allowlistPatterns : List String
  vagueTargetPatterns : List String
  truismPatterns : List String
  strongActionPatterns : List String
  weakActionPatterns : List String
  coreFailThreshold : Nat

/-- The default rules returned by `_load_pregate_rules` when no YAML file is
available. -/
def defaultPregateRules : PregateRules :=
  { minTargetLen := 2
    minProblemLen := 11
    minIdeaLen := 15
    minAltLen := 10
    allowlistPatterns :=
      [("^의사$"), ("^간호사$"), ("^약사$"), ("^교사$"), ("^개발자$"),
       ("^디자이너$"), ("^프리랜서$"), ("^소상공인$"), ("^직장인$"),
       ("^doctors?$"), ("^nurses?$"), ("^developers?$"), ("^freelancers?$")]
    vagueTargetPatterns :=
      [("^모든\\s*사람"), ("^누구나"), ("^일반인"), ("^모두$"),
       ("^사람들$"), ("^사용자$"), ("^고객$"),
       ("^everyone$"), ("^anyone$"), ("^all\\s*people")]
    truismPatterns :=
      [("(건강|행복|성공|자기계발|시간관리|생산성).*(중요하다|필요하다)$"),
       ("좋다$"), ("나쁘다$"),
       ("(health|happiness|success).*(is\\s+important|is\\s+needed)$")]
    strongActionPatterns :=
      [("자동화"), ("계산"), ("기록"), ("분석"), ("추천"), ("알림"), ("예약"), ("매칭"),
       ("\\bautomate\\b"), ("\\bcalculate\\b"), ("\\btrack\\b"), ("\\banalyze\\b")]
    weakActionPatterns :=
      [("하는"), ("해주는"), ("돕는"), ("만드는"), ("관리"),
       ("\\bhelp\\b"), ("\\bmake\\b"), ("\\breduce\\b"), ("\\bmanage\\b")]
    coreFailThreshold := 2 }

/-- Check 1 allowlist probe (`re.search` over the stripped, lowercased
target). -/
def pregateInAllowlist (search : String → String → Bool) (rules : PregateRules)
    (data : PregateInputs) : Bool :=
  rules.allowlistPatterns.any (fun p => search p (toLowerStr data.target_customer.trim))

/-- Check 1 vague-target probe. -/
def pregateVagueTarget (search : String → String → Bool) (rules : PregateRules)
    (data : PregateInputs) : Bool :=
  rules.vagueTargetPatterns.any (fun p => search p (toLowerStr data.target_customer.trim))

/-- Check 2 truism probe over the stripped, lowercased problem statement. -/
def pregateTruism (search : String → String → Bool) (rules : PregateRules)
    (data : PregateInputs) : Bool :=
  rules.truismPatterns.any (fun p => search p (toLowerStr data.problem_statement.trim))

/-- Check 3 strong-action probe over the stripped idea (the code searches the
raw idea with `re.IGNORECASE`; case handling lives in the oracle). -/
def pregateStrongAction (search : String → String → Bool) (rules : PregateRules)
    (data : PregateInputs) : Bool :=
  rules.strongActionPatterns.any (fun p => search p data.idea_one_liner.trim)

/-- Check 3 weak-action probe: evaluated only when no strong pattern hit. -/
def pregateWeakAction (search : String → String → Bool) (rules : PregateRules)
    (data : PregateInputs) : Bool :=
  !pregateStrongAction search rules data
    && rules.weakActionPatterns.any (fun p => search p data.idea_one_liner.trim)

/-- Check 4: alternatives are present and long enough. -/
def pregateAltOk (rules : PregateRules) (data : PregateInputs) : Bool :=
  !(data.current_alternatives.trim == (""))
    && decide (rules.minAltLen ≤ data.current_alternatives.trim.length)

/-- The fail reason `f"타깃이 비특정: '{target}'"`. -/
def vagueTargetReason (target : String) : String :=
  ("타깃이 비특정: \x27") ++ target ++ ("\x27")

/-- The fail reason `f"문제가 상식 수준: '{problem}'"`. -/
def truismReason (problem : String) : String :=
  ("문제가 상식 수준: \x27") ++ problem ++ ("\x27")

/-- The fail reason `f"아이디어에 구체적 행동이 없음: '{idea}'"`. -/
def noActionReason (idea : String) : String :=
  ("아이디어에 구체적 행동이 없음: \x27") ++ idea ++ ("\x27")

/-- Warning for a short target. -/
def shortTargetWarning (target : String) : String :=
  ("타깃이 짧음 (권장: 더 구체적으로): \x27") ++ target ++ ("\x27")

/-- Warning for a short problem statement. -/
def shortProblemWarning (problem : String) : String :=
  ("문제 설명이 짧음 (권장: 더 구체적으로): \x27") ++ problem ++ ("\x27")

/-- Warning for a short idea. -/
def shortIdeaWarning (idea : String) : String :=
  ("아이디어가 짧음 (권장: 더 구체적으로): \x27") ++ idea ++ ("\x27")

/-- Warning for a weak-only action word. -/
def weakActionWarning (idea : String) : String :=
  ("행동이 범용적 (권장: 더 구체적인 행동으로): \x27") ++ idea ++ ("\x27")

/-- Warning for missing alternatives. -/
def noAlternativesWarning : String := ("현재 대안이 명시되지 않음")

/-- The result record of `_pregate_check` (`score` is `checks_passed / 4`,
exact in the model as in the Python float for these denominators). -/
structure PreGateResult where
  is_valid : Bool
  fail_reasons : List String
  warnings : List String
  score : ℚ

/-- `main.py::_pregate_check`. -/
def pregateCheck (search : String → String → Bool) (rules : PregateRules)
    (data : PregateInputs) : PreGateResult :=
  let target := data.target_customer.trim
  let problem := data.problem_statement.trim
  let idea := data.idea_one_liner.trim
  let isInAllowlist := pregateInAllowlist search rules data
  let isVagueTarget := pregateVagueTarget search rules data
  let isTruism := pregateTruism search rules data
  let hasStrongAction := pregateStrongAction search rules data
  let hasWeakAction := pregateWeakAction search rules data
  let altOk := pregateAltOk rules data
  let failReasons :=
    (if isVagueTarget then [vagueTargetReason target] else [])
    ++ (if isTruism then [truismReason problem] else [])
    ++ (if !hasStrongAction && !hasWeakAction then [noActionReason idea] else [])
  let warnings :=
    (if !isInAllowlist && !isVagueTarget && decide (target.length < rules.minTargetLen)
      then [shortTargetWarning target] else [])
    ++ (if decide (problem.length < rules.minProblemLen) && !isTruism
      then [shortProblemWarning problem] else [])
    ++ (if decide (idea.length < rules.minIdeaLen) then [shortIdeaWarning idea] else [])
    ++ (if hasWeakAction then [weakActionWarning idea] else [])
    ++ (if !altOk then [noAlternativesWarning] else [])
  let checksPassed : Nat :=
    (if isVagueTarget then 0 else 1) + (if isTruism then 0 else 1)
    + (if hasStrongAction || hasWeakAction then 1 else 0) + (if altOk then 1 else 0)
  let score : ℚ := (checksPassed : ℚ) / 4
  let coreFails := (failReasons.filter (fun r =>
      strContains r ("타깃") || strContains r ("문제") || strContains r ("행동"))).length
  { is_valid := decide (coreFails < rules.coreFailThreshold)
    fail_reasons := failReasons
    warnings := warnings
    score := score }

/-- Number of the three core checks (vague target, truism problem, no action
word) that fail — the specification-side count C9 speaks about. -/
def coreFailCount (search : String → String → Bool) (rules : PregateRules)
    (data : PregateInputs) : Nat :=
  (if pregateVagueTarget search rules data then 1 else 0)
  + (if pregateTruism search rules data then 1 else 0)
  + (if !pregateStrongAction search rules data && !pregateWeakAction search rules data
      then 1 else 0)

/-- Number of the four checks that pass — the specification-side
`checks_passed`. -/
def checksPassedCount (search : String → String → Bool) (rules : PregateRules)
    (data : PregateInputs) : Nat :=
  (if pregateVagueTarget search rules data then 0 else 1)
  + (if pregateTruism search rules data then 0 else 1)
  + (if pregateStrongAction search rules data || pregateWeakAction search rules data
      then 1 else 0)
  + (if pregateAltOk rules data then 1 else 0)

/-! ### Task graph construction (`crew.py::Step1CrewFactory.create_tasks`,
lines 704-783). A `tasks.yaml` entry is its `context:` dependency list and
its `agent:` key; Task descriptions do not affect resolution. The created
tasks are recorded as (task id, filtered context ids) in creation order. -/

/-- One entry of `tasks.yaml` as `create_tasks` reads it. -/
structure TaskCfg where
  context : List String
  agent : String
deriving DecidableEq

/-- `self.tasks_cfg.get(task_id)` (YAML mapping keys are unique; first
binding wins). -/
def cfgFind : List (String × TaskCfg) → String → Option TaskCfg
  | [], _ => none
  | (k, v) :: rest, t => if k = t then some v else cfgFind rest t

/-- `task_cfg.get("context") or []`. -/
def rawContext (cfg : List (String × TaskCfg)) (t : String) : List String :=
  ((cfgFind cfg t).getD { context := [], agent := ("") }).context

/-- `task_cfg.get("agent")`. -/
def rawAgent (cfg : List (String × TaskCfg)) (t : String) : String :=
  ((cfgFind cfg t).getD { context := [], agent := ("") }).agent

/-- Context filtering: with an allow-list only allow-listed dependency ids
survive (`[c for c in ctx_ids_raw if c in allowed_set]`); with none the raw
context is used. -/
def filterCtx (allowed : Option (List String)) (ctx : List String) : List String :=
  match allowed with
  | some a => ctx.filter (fun c => a.contains c)
  | none => ctx

/-- The task ids `create_tasks` is asked to build:
`set(tid for tid in allowed_task_ids if tid in self.tasks_cfg)` or all
configured ids. -/
def requestedTasks (cfg : List (String × TaskCfg))
    (allowed : Option (List String)) : List String :=
  match allowed with
  | some a => (a.filter (fun t => (cfgFind cfg t).isSome)).eraseDups
  | none => (cfg.map Prod.fst).eraseDups

/-- The two exceptions `create_tasks` can raise: the `KeyError` for an
unknown agent key, and the `ValueError` naming the blocked tasks with their
context lists. -/
inductive CreateError where
  | unknownAgent (taskId agentKey : String)
  | cycleOrMissing (blocked : List (String × List String))
deriving DecidableEq

/-- One full pass of the `for task_id in list(remaining)` loop: a task whose
filtered dependencies are all already created is appended to the creation
order (tasks created earlier in the same pass count, as in the Python dict
mutation); a resolvable task with an unknown agent key raises; an
unresolvable task stays in `remaining`. The Bool is the pass's progress
flag. -/
def onePass (cfg : List (String × TaskCfg)) (agents : List String)
    (allowed : Option (List String)) :
    List (String × List String) → List String →
    Except CreateError (List (String × List String) × List String × Bool)
  | created, [] => Except.ok (created, [], false)
  | created, t :: rest =>
      let ctx := filterCtx allowed (rawContext cfg t)
      if ctx.all (fun c => created.any (fun p => p.1 == c)) then
        if agents.contains (rawAgent cfg t) then
          match onePass cfg agents allowed (created ++ [(t, ctx)]) rest with
          | Except.ok (c, r, _) => Except.ok (c, r, true)
          | Except.error e => Except.error e
        else Except.error (CreateError.unknownAgent t (rawAgent cfg t))
      else
        match onePass cfg agents allowed created rest with
        | Except.ok (c, r, p) => Except.ok (c, t :: r, p)
        | Except.error e => Except.error e

/-- The blocked dictionary reported by the cycle/missing-dependency error:
each still-remaining task paired with its raw context list. -/
def blockedOf (cfg : List (String × TaskCfg)) (remaining : List String) :
    List (String × List String) :=
  remaining.map (fun t => (t, rawContext cfg t))

/-- The `while remaining:` loop: each iteration is one full pass, and a pass
without progress raises the blocked-tasks error. The fuel equals the initial
number of remaining tasks; every successful pass removes at least one task,
so the fuel-exhaustion branch (which raises the same error) is unreachable. -/
def createLoop (cfg : List (String × TaskCfg)) (agents : List String)
    (allowed : Option (List String)) :
    Nat → List (String × List String) → List String →
    Except CreateError (List (String × List String))
  | _, created, [] => Except.ok created
  | 0, _, remaining => Except.error (CreateError.cycleOrMissing (blockedOf cfg remaining))
  | Nat.succ n, created, remaining =>
      match onePass cfg agents allowed created remaining with
      | Except.error e => Except.error e
      | Except.ok (c, r, progress) =>
          if progress then createLoop cfg agents allowed n c r
          else Except.error (CreateError.cycleOrMissing (blockedOf cfg r))

/-- `crew.py::Step1CrewFactory.create_tasks`. -/
def createTasks (cfg : List (String × TaskCfg)) (agents : List String)
    (allowed : Option (List String)) :
    Except CreateError (List (String × List String)) :=
  createLoop cfg agents allowed (requestedTasks cfg allowed).length []
    (requestedTasks cfg allowed)

/-- Every entry of a creation order sees all its stored context ids among
the names created before it (plus the ambient `seen` names): the
"strictly after all its allow-listed dependencies" property. -/
def DepsOrdered : List String → List (String × List String) → Prop
  | _, [] => True
  | seen, (t, ctx) :: rest => (∀ c ∈ ctx, c ∈ seen) ∧ DepsOrdered (t :: seen) rest

/-- A task is creatable when it is requested and all its allow-list-filtered
dependencies are creatable — exactly the tasks the repeated-scan resolution
can ever create. A task on a dependency cycle, or one whose filtered
dependency is missing from the requested set, is not creatable. -/
inductive Creatable (cfg : List (String × TaskCfg))
    (allowed : Option (List String)) : String → Prop
  | make (t : String) (ht : t ∈ requestedTasks cfg allowed)
      (hdeps : ∀ c ∈ filterCtx allowed (rawContext cfg t), Creatable cfg allowed c) :
      Creatable cfg allowed t

/-- The spec's worked acyclic example `A:[], B:[A], C:[A,B]`. -/
def cfgABC : List (String × TaskCfg) :=
  [(("A"), { context := [], agent := ("orchestrator") }),
   (("B"), { context := [("A")], agent := ("orchestrator") }),
   (("C"), { context := [("A"), ("B")], agent := ("orchestrator") })]

/-- The spec's cyclic example `A:[B], B:[A]`. -/
def cfgCycle : List (String × TaskCfg) :=
  [(("A"), { context := [("B")], agent := ("orchestrator") }),
   (("B"), { context := [("A")], agent := ("orchestrator") })]

/-! ### Competitor-output compaction (`main.py::_compact_competitors_output`,
lines 410-462). JSON values are modelled explicitly; `json.loads` and
`json.dumps` are external library calls and appear as `parse` / `dumps`
parameters. -/

/-- A parsed JSON value. Numbers are modelled as integers; their exact
representation does not matter to the compaction logic. -/
inductive JValue where
  | null
  | boolean (b : Bool)
  | num (n : Int)
  | str (s : String)
  | arr (elems : List JValue)
  | obj (fields : List (String × JValue))

/-- The Python exceptions the function raises on a parsed non-object. -/
inductive PyErr where
  | attributeError
  | typeError
deriving DecidableEq

/-- The left curly bracket character. -/
def lbrace : Char := Char.ofNat 123

/-- The right curly bracket character. -/
def rbrace : Char := Char.ofNat 125

/-- Index of the first occurrence of `pat` in a character list
(Python `str.find`). -/
def seqIdx (pat : List Char) : List Char → Option Nat
  | [] => if startsWithB pat [] then some 0 else none
  | c :: rest =>
      if startsWithB pat (c :: rest) then some 0
      else (seqIdx pat rest).map (fun i => i + 1)

/-- Strip trailing whitespace. -/
def dropEndWs (cs : List Char) : List Char := (cs.reverse.dropWhile isWs).reverse

/-- Strip whitespace from both ends, as the greedy and lazy whitespace parts
around the fenced-block capture do. -/
def trimWsChars (cs : List Char) : List Char := dropEndWs (cs.dropWhile isWs)

/-- The fenced-block search: the first case-insensitive occurrence of a
json code fence, capturing up to the first following closing fence with
surrounding whitespace trimmed. -/
def extractJsonBlock (raw : String) : Option String :=
  match seqIdx ("```json").data (raw.data.map Char.toLower) with
  | none => none
  | some i =>
      match seqIdx ("```").data (raw.data.drop (i + 7)) with
      | none => none
      | some j => some (String.mk (trimWsChars ((raw.data.drop (i + 7)).take j)))

/-- The first-open-brace / last-close-brace fallback span; `none` when
`0 <= first < last` fails. -/
def braceSpan (raw : String) : Option String :=
  match seqIdx [lbrace] raw.data,
      (seqIdx [rbrace] raw.data.reverse).map (fun i => raw.data.length - 1 - i) with
  | some f, some l =>
      if f < l then some (String.mk ((raw.data.drop f).take (l + 1 - f))) else none
  | _, _ => none

/-- The JSON candidate string, or `none` when the function returns the raw
output unchanged. -/
def extractJsonStr (raw : String) : Option String :=
  match extractJsonBlock raw with
  | some js => some js
  | none => braceSpan raw

/-- Dict lookup (`json.loads` produces unique keys; first binding wins). -/
def lookupField : List (String × JValue) → String → Option JValue
  | [], _ => none
  | (k2, v) :: rest, k => if k2 = k then some v else lookupField rest k

/-- Dict item assignment: replace the value stored at the key. -/
def setField : List (String × JValue) → String → JValue → List (String × JValue)
  | [], _, _ => []
  | (k2, w) :: rest, k, v =>
      if k2 = k then (k2, v) :: setField rest k v else (k2, w) :: setField rest k v

/-- `MAX_COMPETITORS_ITEMS`. -/
def MAX_COMPETITORS_ITEMS : Nat := 8

/-- `MAX_COMPETITORS_CANDIDATES`. -/
def MAX_COMPETITORS_CANDIDATES : Nat := 15

/-- The forced cut of one key: when the key is present and holds a list
longer than the bound, replace it by its first `maxLen` elements and report
truncation. -/
def cutListField (fields : List (String × JValue)) (k : String) (maxLen : Nat) :
    List (String × JValue) × Bool :=
  match lookupField fields k with
  | some (JValue.arr xs) =>
      if xs.length > maxLen then
        (setField fields k (JValue.arr (xs.take maxLen)), true)
      else (fields, false)
  | _ => (fields, false)

/-- The notes shortening applied to each item: a dict item whose `notes` is
a string longer than 50 characters gets it cut to 50 plus an ellipsis. -/
def shortenNotes (item : JValue) : JValue :=
  match item with
  | JValue.obj f =>
      match lookupField f ("notes") with
      | some (JValue.str s) =>
          if s.length > 50 then
            JValue.obj (setField f ("notes") (JValue.str (s.take 50 ++ ("..."))))
          else JValue.obj f
      | _ => JValue.obj f
  | v => v

/-- The `for item in data.get("items", [])` loop: iterating a list visits
its elements (dicts get their notes shortened in place); iterating a string
visits characters and an object visits keys, none of which are dicts, so
nothing changes; iterating a number, boolean or null raises `TypeError`. -/
def applyNotesLoop (fields : List (String × JValue)) :
    Except PyErr (List (String × JValue)) :=
  match lookupField fields ("items") with
  | none => Except.ok fields
  | some (JValue.arr xs) =>
      Except.ok (setField fields ("items") (JValue.arr (xs.map shortenNotes)))
  | some (JValue.str _) => Except.ok fields
  | some (JValue.obj _) => Except.ok fields
  | some _ => Except.error PyErr.typeError

/-- The exception raised when the parsed JSON value is not a dict: strings
and lists pass the membership checks but raise `AttributeError` at
`data.get`; numbers, booleans and null raise `TypeError` already at
the membership check. -/
def compactNonDict : JValue → PyErr
  | JValue.str _ => PyErr.attributeError
  | JValue.arr _ => PyErr.attributeError
  | _ => PyErr.typeError

/-- `main.py::_compact_competitors_output`. -/
def compactCompetitorsOutput (parse : String → Option JValue)
    (dumps : JValue → String) (rawOutput : String) :
    Except PyErr (String × Bool) :=
  match extractJsonStr rawOutput with
  | none => Except.ok (rawOutput, false)
  | some js =>
      match parse js with
      | none => Except.ok (rawOutput, false)
      | some (JValue.obj fields) =>
          let r1 := cutListField fields ("items") MAX_COMPETITORS_ITEMS
          let r2 := cutListField r1.1 ("candidates") MAX_COMPETITORS_CANDIDATES
          match applyNotesLoop r2.1 with
          | Except.error e => Except.error e
          | Except.ok fields2 =>
              Except.ok (("```json\n") ++ dumps (JValue.obj fields2) ++ ("\n```"),
                r1.2 || r2.2)
      | some v => Except.error (compactNonDict v)

/-! ## Theorems -/

/-- Appending on the right preserves a prefix match. -/
theorem startsWithB_append (p : List Char) :
    ∀ s t : List Char, startsWithB p s = true → startsWithB p (s ++ t) = true := by
  induction p with
  | nil => intro s t _; rfl
  | cons a as ih =>
      intro s t h
      cases s with
      | nil => exact absurd h (by simp [startsWithB])
      | cons b bs =>
          simp only [startsWithB, Bool.and_eq_true] at h
          simp only [List.cons_append, startsWithB, Bool.and_eq_true]
          exact ⟨h.1, ih bs t h.2⟩

/-- Appending on the right preserves substring containment. -/
theorem containsSeq_append (p : List Char) :
    ∀ s t : List Char, containsSeq p s = true → containsSeq p (s ++ t) = true := by
  intro s
  induction s with
  | nil =>
      intro t h
      simp only [containsSeq] at h
      cases t with
      | nil => exact h
      | cons c cs =>
          simp only [List.nil_append, containsSeq, Bool.or_eq_true]
          exact Or.inl (startsWithB_append p [] (c :: cs) h)
  | cons c cs ih =>
      intro t h
      simp only [containsSeq, Bool.or_eq_true] at h
      simp only [List.cons_append, containsSeq, Bool.or_eq_true]
      rcases h with h1 | h2
      · exact Or.inl (by simpa using startsWithB_append p (c :: cs) t (by simpa using h1))
      · exact Or.inr (ih t h2)

/-- Appending on the right preserves `strContains`. -/
theorem strContains_append (s t pat : String) (h : strContains s pat = true) :
    strContains (s ++ t) pat = true := by
  unfold strContains at h ⊢
  rw [String.data_append]
  exact containsSeq_append pat.data s.data t.data h

/-- The vague-target reason always contains the keyword the core-failure
counter looks for. -/
theorem vagueTargetReason_kw (t : String) :
    strContains (vagueTargetReason t) ("타깃") = true := by
  unfold vagueTargetReason
  exact strContains_append _ _ _ (strContains_append _ _ _ (by decide))

/-- The truism reason always contains its keyword. -/
theorem truismReason_kw (p : String) :
    strContains (truismReason p) ("문제") = true := by
  unfold truismReason
  exact strContains_append _ _ _ (strContains_append _ _ _ (by decide))

/-- The no-action reason always contains its keyword. -/
theorem noActionReason_kw (i : String) :
    strContains (noActionReason i) ("행동") = true := by
  unfold noActionReason
  exact strContains_append _ _ _ (strContains_append _ _ _ (by decide))

/-- A keyword with no readable match resolves to the empty string. -/
theorem readMd_of_noReadableMatch (pat : String) :
    ∀ files : List MdFile, noReadableMatch files pat → readMd files pat = ("") := by
  intro files
  induction files with
  | nil => intro _; rfl
  | cons f rest ih =>
      intro h
      unfold readMd
      by_cases hm : strContains (toLowerStr f.name) (toLowerStr pat) = true
      · rw [if_pos hm, h f (List.mem_cons_self f rest) hm]
        exact ih (fun g hg => h g (List.mem_cons_of_mem f hg))
      · rw [if_neg hm]
        exact ih (fun g hg => h g (List.mem_cons_of_mem f hg))

/-- Claim C1 (code_bug evidence). With pass-1 output carrying
`VERDICT: LANDING_HOLD` and a revision recheck output containing no verdict
marker, re-extraction yields the truthy string `UNKNOWN`, so
`verdict_v2 if verdict_v2 else verdict` never falls back and the final
verdict regresses from `LANDING_HOLD` to `UNKNOWN`, contradicting the claim
that the prior verdict is retained. -/
theorem verdict_regresses_to_unknown_after_failed_recheck :
    (extractVerdictFromSources [("VERDICT: LANDING_HOLD")]).1 = ("LANDING_HOLD")
    ∧ (extractVerdictFromSources [("레드팀 재검토 결과: 판정 문구 없음")]).1 = ("UNKNOWN")
    ∧ autoReviseFinalVerdict [("VERDICT: LANDING_HOLD")]
        [("레드팀 재검토 결과: 판정 문구 없음")] false = ("UNKNOWN") := by
  refine ⟨by decide, by decide, by decide⟩

/-- Claim C3. The auto-revise branch rule of `run_gap_foundry_engine`:
`LANDING_GO` runs zero revision stages, `LANDING_HOLD` runs it exactly once,
`LANDING_NO` runs it only when `--revise-no` is set. -/
theorem gate_branch_rule (reviseNo : Bool) :
    doRevision ("LANDING_GO") reviseNo = false
    ∧ revisionStageRuns ("LANDING_GO") reviseNo = 0
    ∧ doRevision ("LANDING_HOLD") reviseNo = true
    ∧ revisionStageRuns ("LANDING_HOLD") reviseNo = 1
    ∧ doRevision ("LANDING_NO") false = false
    ∧ revisionStageRuns ("LANDING_NO") false = 0
    ∧ doRevision ("LANDING_NO") true = true
    ∧ revisionStageRuns ("LANDING_NO") true = 1 := by
  cases reviseNo <;> exact (by decide)

/-- Claim C6. The stage windows are exactly pass1 `[5, 70]`, revision
`[70, 85]`, final_report `[85, 100]`, and the percent forwarded to the
external callback equals `low + floor((idx / count) * (high - low))`. -/
theorem stage_window_formula (idx count : Nat) (h : 0 < count) :
    stageProgressRange ("pass1") = (5, 70)
    ∧ stageProgressRange ("revision") = (70, 85)
    ∧ stageProgressRange ("final_report") = (85, 100)
    ∧ externalProgress ("pass1") idx count
        = 5 + Nat.floor ((idx : ℚ) / (count : ℚ) * 65)
    ∧ externalProgress ("revision") idx count
        = 70 + Nat.floor ((idx : ℚ) / (count : ℚ) * 15)
    ∧ externalProgress ("final_report") idx count
        = 85 + Nat.floor ((idx : ℚ) / (count : ℚ) * 15) := by
  have k65 : Nat.floor ((idx : ℚ) / (count : ℚ) * 65) = idx * 65 / count := by
    have hcast : (idx : ℚ) * 65 = ((idx * 65 : ℕ) : ℚ) := by push_cast; ring
    rw [div_mul_eq_mul_div, hcast, Nat.floor_div_nat, Nat.floor_natCast]
  have k15 : Nat.floor ((idx : ℚ) / (count : ℚ) * 15) = idx * 15 / count := by
    have hcast : (idx : ℚ) * 15 = ((idx * 15 : ℕ) : ℚ) := by push_cast; ring
    rw [div_mul_eq_mul_div, hcast, Nat.floor_div_nat, Nat.floor_natCast]
  refine ⟨rfl, rfl, rfl, ?_, ?_, ?_⟩
  · have hs : stageProgressRange ("pass1") = (5, 70) := by decide
    simp only [externalProgress, hs, k65]
  · have hs : stageProgressRange ("revision") = (70, 85) := by decide
    simp only [externalProgress, hs, k15]
  · have hs : stageProgressRange ("final_report") = (85, 100) := by decide
    simp only [externalProgress, hs, k15]

/-- Witness for C6 at `idx = 3`, `count = 9`. -/
theorem stage_window_formula_witness :
    stageProgressRange ("pass1") = (5, 70)
    ∧ stageProgressRange ("revision") = (70, 85)
    ∧ stageProgressRange ("final_report") = (85, 100)
    ∧ externalProgress ("pass1") 3 9
        = 5 + Nat.floor (((3 : ℕ) : ℚ) / ((9 : ℕ) : ℚ) * 65)
    ∧ externalProgress ("revision") 3 9
        = 70 + Nat.floor (((3 : ℕ) : ℚ) / ((9 : ℕ) : ℚ) * 15)
    ∧ externalProgress ("final_report") 3 9
        = 85 + Nat.floor (((3 : ℕ) : ℚ) / ((9 : ℕ) : ℚ) * 15) :=
  stage_window_formula 3 9 (by decide)

/-- Claim C7. Startup reconciliation maps every persisted record pointwise;
a terminal record (`completed`, `failed`, `pregate_failed`) is left exactly
as loaded, and a non-terminal one is forced to `failed` with the synthetic
restart message, all other fields preserved. -/
theorem startup_reconciliation (records : List (String × JobRecord))
    (k : String) (j : JobRecord) :
    ((k, j) ∈ records → (k, reconcileRecord j) ∈ loadJobs records)
    ∧ (terminalStatuses.contains j.status = true → reconcileRecord j = j)
    ∧ (terminalStatuses.contains j.status = false →
        (reconcileRecord j).status = ("failed")
        ∧ (reconcileRecord j).errorMessage = some restartInterruptedMessage
        ∧ (reconcileRecord j).progress = j.progress
        ∧ (reconcileRecord j).verdict = j.verdict
        ∧ (reconcileRecord j).currentStep = j.currentStep
        ∧ (reconcileRecord j).createdAt = j.createdAt) := by
  refine ⟨?_, ?_, ?_⟩
  · intro hmem
    exact List.mem_map_of_mem (fun p => (p.1, reconcileRecord p.2)) hmem
  · intro ht
    unfold reconcileRecord
    rw [ht]
    simp
  · intro hf
    unfold reconcileRecord
    rw [hf]
    simp

/-- Witness for C7: a `researching` record becomes `failed` with the restart
message; a `completed` record is unchanged. -/
theorem startup_reconciliation_witness :
    ((reconcileRecord
        { status := ("researching"), progress := 40,
          currentStep := ("분석 중"), verdict := none, errorMessage := none,
          createdAt := ("2026-01-01") }).status = ("failed")
      ∧ (reconcileRecord
        { status := ("researching"), progress := 40,
          currentStep := ("분석 중"), verdict := none, errorMessage := none,
          createdAt := ("2026-01-01") }).errorMessage
          = some restartInterruptedMessage)
    ∧ reconcileRecord
        { status := ("completed"), progress := 100,
          currentStep := ("검증 완료!"), verdict := some ("LANDING_GO"),
          errorMessage := none, createdAt := ("2026-01-01") }
      = { status := ("completed"), progress := 100,
          currentStep := ("검증 완료!"), verdict := some ("LANDING_GO"),
          errorMessage := none, createdAt := ("2026-01-01") } := by
  constructor
  · have h := (startup_reconciliation [] ("r1")
      { status := ("researching"), progress := 40,
        currentStep := ("분석 중"), verdict := none, errorMessage := none,
        createdAt := ("2026-01-01") }).2.2 (by decide)
    exact ⟨h.1, h.2.1⟩
  · exact (startup_reconciliation [] ("r2")
      { status := ("completed"), progress := 100,
        currentStep := ("검증 완료!"), verdict := some ("LANDING_GO"),
        errorMessage := none, createdAt := ("2026-01-01") }).2.1 (by decide)

/-- Claim C2 (counterexample). After pass 1 saves its nine artifacts the
monitor computes and stores percent 84; the revision stage's first task
completion then forwards percent 77 (`externalProgress revision 1 2`), and
`_update_job_status` overwrites the stored progress with the lower value:
the recorded percent for the run decreases from 84 to 77. -/
theorem progress_regression_counterexample :
    monitorProgress pass1ArtifactFiles [] = 84
    ∧ externalProgress ("revision") 1 2 = 77
    ∧ (updateJobStatus jobInitial (statusFor 84) 84 ("모니터 갱신")).progress = 84
    ∧ (updateJobStatus (updateJobStatus jobInitial (statusFor 84) 84 ("모니터 갱신"))
        (statusFor 77) 77 ("포지셔닝 수정 완료")).progress = 77
    ∧ 77 < 84 := by
  refine ⟨by decide, by decide, rfl, rfl, by decide⟩

/-- Claim C2 (amended). The file-polling monitor on its own is monotone: it
emits only percents strictly above its tracked `last_progress`, so the
percents it emits form a strictly increasing sequence — but combined with the
task-boundary callback the recorded percent is not monotone, since
`_update_job_status` stores whatever percent it is given. -/
theorem monitor_emissions_monotone (last : Nat)
    (obsList : List (List String × List String)) :
    List.Chain' (fun a b => a < b) (monitorEmittedPercents last obsList)
    ∧ ∀ p, p ∈ monitorEmittedPercents last obsList → last < p := by
  induction obsList generalizing last with
  | nil => exact ⟨List.chain'_nil, by intro p hp; cases hp⟩
  | cons obs rest ih =>
      by_cases h : last < monitorProgress obs.1 obs.2
      · have ihc := ih (monitorProgress obs.1 obs.2)
        constructor
        · simp only [monitorEmittedPercents, if_pos h]
          cases hrest : monitorEmittedPercents (monitorProgress obs.1 obs.2) rest with
          | nil => simp
          | cons q tail =>
              rw [List.chain'_cons]
              refine ⟨?_, ?_⟩
              · have := ihc.2 q (by rw [hrest]; exact List.mem_cons_self q tail)
                exact this
              · have := ihc.1
                rw [hrest] at this
                exact this
        · intro p hp
          simp only [monitorEmittedPercents, if_pos h] at hp
          rcases List.mem_cons.mp hp with h1 | h2
          · exact h1 ▸ h
          · exact lt_trans h (ihc.2 p h2)
      · have ihc := ih last
        constructor
        · simpa only [monitorEmittedPercents, if_neg h] using ihc.1
        · intro p hp
          simp only [monitorEmittedPercents, if_neg h] at hp
          exact ihc.2 p hp

/-- Witness for the amended C2 theorem, at `last = 5` with the single
observation of the nine pass-1 artifacts (the monitor emits exactly `[84]`). -/
theorem monitor_emissions_monotone_witness :
    List.Chain' (fun a b => a < b) (monitorEmittedPercents 5 [(pass1ArtifactFiles, [])])
    ∧ 5 < 84 := by
  constructor
  · exact (monitor_emissions_monotone 5 [(pass1ArtifactFiles, [])]).1
  · exact (monitor_emissions_monotone 5 [(pass1ArtifactFiles, [])]).2 84 (by decide)

/-- Claim C8. `_load_pass1_outputs_for_revision` is total (it returns a
`Pass1Outputs` record, so all four keys are always present and nothing is
raised), and any artifact whose keywords match no readable file resolves to
the empty string. -/
theorem revision_seed_lookup_defaults (files : List MdFile) :
    (noReadableMatch files ("create_pov") → noReadableMatch files ("positioning") →
      noReadableMatch files ("pov") →
      (loadPass1OutputsForRevision files).previous_positioning_output = (""))
    ∧ (noReadableMatch files ("red_team_review") → noReadableMatch files ("red_team") →
      (loadPass1OutputsForRevision files).previous_red_team_output = (""))
    ∧ (noReadableMatch files ("summarize") → noReadableMatch files ("summary") →
      (loadPass1OutputsForRevision files).research_summary = (""))
    ∧ (noReadableMatch files ("mine_gaps") → noReadableMatch files ("gap") →
      (loadPass1OutputsForRevision files).gap_hypotheses = ("")) := by
  refine ⟨?_, ?_, ?_, ?_⟩
  · intro h1 h2 h3
    unfold loadPass1OutputsForRevision
    rw [readMd_of_noReadableMatch _ files h1, readMd_of_noReadableMatch _ files h2,
      readMd_of_noReadableMatch _ files h3]
    rfl
  · intro h1 h2
    unfold loadPass1OutputsForRevision
    rw [readMd_of_noReadableMatch _ files h1, readMd_of_noReadableMatch _ files h2]
    rfl
  · intro h1 h2
    unfold loadPass1OutputsForRevision
    rw [readMd_of_noReadableMatch _ files h1, readMd_of_noReadableMatch _ files h2]
    rfl
  · intro h1 h2
    unfold loadPass1OutputsForRevision
    rw [readMd_of_noReadableMatch _ files h1, readMd_of_noReadableMatch _ files h2]
    rfl

/-- Witness for C8: one matching but unreadable red-team file and one
unrelated readable file — every artifact resolves to the empty string. -/
theorem revision_seed_lookup_defaults_witness :
    (loadPass1OutputsForRevision
        [{ name := ("red_team_review.md"), content := none },
         { name := ("misc_readme.md"), content := some ("x") }]).previous_positioning_output = ("")
    ∧ (loadPass1OutputsForRevision
        [{ name := ("red_team_review.md"), content := none },
         { name := ("misc_readme.md"), content := some ("x") }]).previous_red_team_output = ("")
    ∧ (loadPass1OutputsForRevision
        [{ name := ("red_team_review.md"), content := none },
         { name := ("misc_readme.md"), content := some ("x") }]).research_summary = ("")
    ∧ (loadPass1OutputsForRevision
        [{ name := ("red_team_review.md"), content := none },
         { name := ("misc_readme.md"), content := some ("x") }]).gap_hypotheses = ("") := by
  refine ⟨?_, ?_, ?_, ?_⟩
  · exact (revision_seed_lookup_defaults
      [{ name := ("red_team_review.md"), content := none },
       { name := ("misc_readme.md"), content := some ("x") }]).1
      (by decide) (by decide) (by decide)
  · exact (revision_seed_lookup_defaults
      [{ name := ("red_team_review.md"), content := none },
       { name := ("misc_readme.md"), content := some ("x") }]).2.1
      (by decide) (by decide)
  · exact (revision_seed_lookup_defaults
      [{ name := ("red_team_review.md"), content := none },
       { name := ("misc_readme.md"), content := some ("x") }]).2.2.1
      (by decide) (by decide)
  · exact (revision_seed_lookup_defaults
      [{ name := ("red_team_review.md"), content := none },
       { name := ("misc_readme.md"), content := some ("x") }]).2.2.2
      (by decide) (by decide)

/-- Claim C9. Under the default rules, `_pregate_check` is invalid exactly
when at least two of the three core checks fail (the keyword filter counts
every fail reason, since each reason string carries its keyword), a single
core failure or a mere missing-alternatives warning keeps it valid, and the
score is always `checks_passed / 4`, one of 0, 1/4, 1/2, 3/4, 1. -/
theorem pregate_default_judgment (search : String → String → Bool)
    (data : PregateInputs) :
    ((pregateCheck search defaultPregateRules data).is_valid = true
      ↔ coreFailCount search defaultPregateRules data < 2)
    ∧ (pregateCheck search defaultPregateRules data).score
        = (checksPassedCount search defaultPregateRules data : ℚ) / 4
    ∧ ((pregateCheck search defaultPregateRules data).score = 0
      ∨ (pregateCheck search defaultPregateRules data).score = 1/4
      ∨ (pregateCheck search defaultPregateRules data).score = 1/2
      ∨ (pregateCheck search defaultPregateRules data).score = 3/4
      ∨ (pregateCheck search defaultPregateRules data).score = 1) := by
  have hth : defaultPregateRules.coreFailThreshold = 2 := rfl
  cases hb1 : pregateVagueTarget search defaultPregateRules data <;>
    cases hb2 : pregateTruism search defaultPregateRules data <;>
    cases hb3 : pregateStrongAction search defaultPregateRules data <;>
    cases hb4 : pregateWeakAction search defaultPregateRules data <;>
    cases hb5 : pregateAltOk defaultPregateRules data <;>
    simp [pregateCheck, coreFailCount, checksPassedCount, hth,
      hb1, hb2, hb3, hb4, hb5, List.filter,
      vagueTargetReason_kw, truismReason_kw, noActionReason_kw] <;>
    norm_num

/-- Appending one task whose context is already covered preserves
`DepsOrdered`. -/
theorem depsOrdered_append (t : String) (ctx : List String) :
    ∀ (xs : List (String × List String)) (seen : List String),
      DepsOrdered seen xs → (∀ c ∈ ctx, c ∈ seen ∨ c ∈ xs.map Prod.fst) →
      DepsOrdered seen (xs ++ [(t, ctx)]) := by
  intro xs
  induction xs with
  | nil =>
      intro seen _ h2
      refine ⟨?_, trivial⟩
      intro c hc
      rcases h2 c hc with h | h
      · exact h
      · simp at h
  | cons p rest ih =>
      intro seen h1 h2
      obtain ⟨t2, ctx2⟩ := p
      obtain ⟨ha, hb⟩ := h1
      refine ⟨ha, ?_⟩
      apply ih (t2 :: seen) hb
      intro c hc
      rcases h2 c hc with h | h
      · exact Or.inl (List.mem_cons_of_mem t2 h)
      · simp only [List.map_cons, List.mem_cons] at h
        rcases h with h | h
        · exact Or.inl (h ▸ List.mem_cons_self t2 seen)
        · exact Or.inr h

/-- A successful pass preserves the creation-order invariants: the order
respects dependencies, every stored context is the filtered raw context, the
names are a permutation-preserving split of the inputs, and the kept
remainder comes from the input remainder. -/
theorem onePass_ok_invariant (cfg : List (String × TaskCfg)) (agents : List String)
    (allowed : Option (List String)) :
    ∀ (remaining : List String) (created c : List (String × List String))
      (r : List String) (prog : Bool),
      onePass cfg agents allowed created remaining = Except.ok (c, r, prog) →
      (DepsOrdered [] created ∧
        ∀ p ∈ created, p.2 = filterCtx allowed (rawContext cfg p.1)) →
      (DepsOrdered [] c ∧ ∀ p ∈ c, p.2 = filterCtx allowed (rawContext cfg p.1))
      ∧ List.Perm (c.map Prod.fst ++ r) (created.map Prod.fst ++ remaining)
      ∧ (∀ x ∈ r, x ∈ remaining) := by
  intro remaining
  induction remaining with
  | nil =>
      intro created c r prog h hinv
      simp only [onePass, Except.ok.injEq, Prod.mk.injEq] at h
      obtain ⟨h1, h2, _⟩ := h
      subst h1; subst h2
      exact ⟨hinv, by simp, by intro x hx; cases hx⟩
  | cons t rest ih =>
      intro created c r prog h hinv
      simp only [onePass] at h
      by_cases hdep : (filterCtx allowed (rawContext cfg t)).all
          (fun cc => created.any (fun p => p.1 == cc)) = true
      · rw [if_pos hdep] at h
        by_cases hag : agents.contains (rawAgent cfg t) = true
        · rw [if_pos hag] at h
          cases hrec : onePass cfg agents allowed
              (created ++ [(t, filterCtx allowed (rawContext cfg t))]) rest with
          | error e => rw [hrec] at h; simp at h
          | ok tri =>
              obtain ⟨c2, r2, p2⟩ := tri
              rw [hrec] at h
              simp only [Except.ok.injEq, Prod.mk.injEq] at h
              obtain ⟨h1, h2, _⟩ := h
              subst h1; subst h2
              have hinv2 : DepsOrdered []
                  (created ++ [(t, filterCtx allowed (rawContext cfg t))])
                  ∧ ∀ p ∈ created ++ [(t, filterCtx allowed (rawContext cfg t))],
                      p.2 = filterCtx allowed (rawContext cfg p.1) := by
                constructor
                · apply depsOrdered_append t _ created [] hinv.1
                  intro cc hcc
                  right
                  have := List.all_eq_true.mp hdep cc hcc
                  obtain ⟨p, hp, hpe⟩ := List.any_eq_true.mp this
                  have : p.1 = cc := by simpa using hpe
                  exact this ▸ List.mem_map_of_mem Prod.fst hp
                · intro p hp
                  rcases List.mem_append.mp hp with hh | hh
                  · exact hinv.2 p hh
                  · simp only [List.mem_singleton] at hh
                    subst hh
                    rfl
              have hres := ih (created ++ [(t, filterCtx allowed (rawContext cfg t))])
                c2 r2 p2 hrec hinv2
              refine ⟨hres.1, ?_, fun x hx => List.mem_cons_of_mem t (hres.2.2 x hx)⟩
              have hperm := hres.2.1
              rw [List.map_append] at hperm
              simpa [List.append_assoc] using hperm
        · rw [if_neg hag] at h
          simp at h
      · rw [if_neg hdep] at h
        cases hrec : onePass cfg agents allowed created rest with
        | error e => rw [hrec] at h; simp at h
        | ok tri =>
            obtain ⟨c2, r2, p2⟩ := tri
            rw [hrec] at h
            simp only [Except.ok.injEq, Prod.mk.injEq] at h
            obtain ⟨h1, h2, _⟩ := h
            subst h1; subst h2
            have hres := ih created c2 r2 p2 hrec hinv
            refine ⟨hres.1, ?_, ?_⟩
            · exact (List.perm_middle).trans ((hres.2.1.cons t).trans List.perm_middle.symm)
            · intro x hx
              rcases List.mem_cons.mp hx with hh | hh
              · exact hh ▸ List.mem_cons_self t rest
              · exact List.mem_cons_of_mem t (hres.2.2 x hh)

/-- The loop preserves the invariants and, on success, has created exactly
the input names. -/
theorem createLoop_ok_invariant (cfg : List (String × TaskCfg)) (agents : List String)
    (allowed : Option (List String)) :
    ∀ (fuel : Nat) (created : List (String × List String)) (remaining : List String)
      (res : List (String × List String)),
      createLoop cfg agents allowed fuel created remaining = Except.ok res →
      (DepsOrdered [] created ∧
        ∀ p ∈ created, p.2 = filterCtx allowed (rawContext cfg p.1)) →
      (DepsOrdered [] res ∧ ∀ p ∈ res, p.2 = filterCtx allowed (rawContext cfg p.1))
      ∧ List.Perm (res.map Prod.fst) (created.map Prod.fst ++ remaining) := by
  intro fuel
  induction fuel with
  | zero =>
      intro created remaining res h hinv
      cases remaining with
      | nil =>
          simp only [createLoop, Except.ok.injEq] at h
          subst h
          exact ⟨hinv, by simp⟩
      | cons a l =>
          simp only [createLoop] at h
          exact absurd h (by simp)
  | succ n ih =>
      intro created remaining res h hinv
      cases remaining with
      | nil =>
          simp only [createLoop, Except.ok.injEq] at h
          subst h
          exact ⟨hinv, by simp⟩
      | cons a l =>
          simp only [createLoop] at h
          cases hrec : onePass cfg agents allowed created (a :: l) with
          | error e => rw [hrec] at h; simp at h
          | ok tri =>
              obtain ⟨c2, r2, p2⟩ := tri
              rw [hrec] at h
              have hop := onePass_ok_invariant cfg agents allowed (a :: l)
                created c2 r2 p2 hrec hinv
              cases p2 with
              | false => simp at h
              | true =>
                  simp only [if_true] at h
                  have hloop := ih c2 r2 res (by simpa using h) hop.1
                  exact ⟨hloop.1, hloop.2.trans hop.2.1⟩

/-- Claim C4. Whenever `create_tasks` returns an order, every task appears
strictly after all of its allow-list-filtered dependencies, each task's
stored context is exactly its raw context restricted to the allow-list
(dependencies outside the allow-list are dropped, imposing no ordering
constraint), and the order covers exactly the requested task set. -/
theorem graph_order_respects_dependencies (cfg : List (String × TaskCfg))
    (agents : List String) (allowed : Option (List String))
    (res : List (String × List String))
    (h : createTasks cfg agents allowed = Except.ok res) :
    DepsOrdered [] res
    ∧ (∀ p ∈ res, p.2 = filterCtx allowed (rawContext cfg p.1))
    ∧ List.Perm (res.map Prod.fst) (requestedTasks cfg allowed) := by
  unfold createTasks at h
  have hres := createLoop_ok_invariant cfg agents allowed
    (requestedTasks cfg allowed).length [] (requestedTasks cfg allowed) res h
    ⟨trivial, by intro p hp; cases hp⟩
  exact ⟨hres.1.1, hres.1.2, by simpa using hres.2⟩

/-- Witness for C4 at the spec's example `A:[], B:[A], C:[A,B]`. -/
theorem graph_order_respects_dependencies_witness :
    DepsOrdered []
      [(("A"), ([] : List String)), (("B"), [("A")]), (("C"), [("A"), ("B")])]
    ∧ (∀ p ∈ [(("A"), ([] : List String)), (("B"), [("A")]), (("C"), [("A"), ("B")])],
        p.2 = filterCtx none (rawContext cfgABC p.1))
    ∧ List.Perm
        ([(("A"), ([] : List String)), (("B"), [("A")]), (("C"), [("A"), ("B")])].map
          Prod.fst)
        (requestedTasks cfgABC none) :=
  graph_order_respects_dependencies cfgABC [("orchestrator")] none
    [(("A"), []), (("B"), [("A")]), (("C"), [("A"), ("B")])] (by rfl)

/-- A pass cannot raise when every remaining task's agent key is known. -/
theorem onePass_no_error (cfg : List (String × TaskCfg)) (agents : List String)
    (allowed : Option (List String)) :
    ∀ (remaining : List String) (created : List (String × List String)),
      (∀ x ∈ remaining, agents.contains (rawAgent cfg x) = true) →
      ∃ c r prog, onePass cfg agents allowed created remaining
        = Except.ok (c, r, prog) := by
  intro remaining
  induction remaining with
  | nil => intro created _; exact ⟨created, [], false, rfl⟩
  | cons t rest ih =>
      intro created hag
      by_cases hdep : (filterCtx allowed (rawContext cfg t)).all
          (fun cc => created.any (fun p => p.1 == cc)) = true
      · obtain ⟨c, r, prog, hrec⟩ := ih
          (created ++ [(t, filterCtx allowed (rawContext cfg t))])
          (fun x hx => hag x (List.mem_cons_of_mem t hx))
        refine ⟨c, r, true, ?_⟩
        simp only [onePass]
        rw [if_pos hdep, if_pos (hag t (List.mem_cons_self t rest)), hrec]
      · obtain ⟨c, r, prog, hrec⟩ := ih created
          (fun x hx => hag x (List.mem_cons_of_mem t hx))
        refine ⟨c, t :: r, prog, ?_⟩
        simp only [onePass]
        rw [if_neg hdep, hrec]

/-- Everything a pass creates is creatable, and a non-creatable remaining
task is still remaining after the pass. -/
theorem onePass_sound (cfg : List (String × TaskCfg)) (agents : List String)
    (allowed : Option (List String)) :
    ∀ (remaining : List String) (created c : List (String × List String))
      (r : List String) (prog : Bool),
      onePass cfg agents allowed created remaining = Except.ok (c, r, prog) →
      (∀ p ∈ created, Creatable cfg allowed p.1) →
      (∀ x ∈ remaining, x ∈ requestedTasks cfg allowed) →
      (∀ p ∈ c, Creatable cfg allowed p.1)
      ∧ (∀ t0, t0 ∈ remaining → ¬ Creatable cfg allowed t0 → t0 ∈ r) := by
  intro remaining
  induction remaining with
  | nil =>
      intro created c r prog h hcr _
      simp only [onePass, Except.ok.injEq, Prod.mk.injEq] at h
      obtain ⟨h1, h2, _⟩ := h
      subst h1; subst h2
      exact ⟨hcr, by intro t0 ht0; cases ht0⟩
  | cons t rest ih =>
      intro created c r prog h hcr hreq
      simp only [onePass] at h
      by_cases hdep : (filterCtx allowed (rawContext cfg t)).all
          (fun cc => created.any (fun p => p.1 == cc)) = true
      · rw [if_pos hdep] at h
        by_cases hag : agents.contains (rawAgent cfg t) = true
        · rw [if_pos hag] at h
          cases hrec : onePass cfg agents allowed
              (created ++ [(t, filterCtx allowed (rawContext cfg t))]) rest with
          | error e => rw [hrec] at h; simp at h
          | ok tri =>
              obtain ⟨c2, r2, p2⟩ := tri
              rw [hrec] at h
              simp only [Except.ok.injEq, Prod.mk.injEq] at h
              obtain ⟨h1, h2, _⟩ := h
              subst h1; subst h2
              have hcrt : Creatable cfg allowed t := by
                refine Creatable.make t (hreq t (List.mem_cons_self t rest)) ?_
                intro cc hcc
                have := List.all_eq_true.mp hdep cc hcc
                obtain ⟨p, hp, hpe⟩ := List.any_eq_true.mp this
                have hpc : p.1 = cc := by simpa using hpe
                exact hpc ▸ hcr p hp
              have hcr2 : ∀ p ∈ created ++ [(t, filterCtx allowed (rawContext cfg t))],
                  Creatable cfg allowed p.1 := by
                intro p hp
                rcases List.mem_append.mp hp with hh | hh
                · exact hcr p hh
                · simp only [List.mem_singleton] at hh
                  subst hh
                  exact hcrt
              have hres := ih _ c2 r2 p2 hrec hcr2
                (fun x hx => hreq x (List.mem_cons_of_mem t hx))
              refine ⟨hres.1, ?_⟩
              intro t0 ht0 hnc
              rcases List.mem_cons.mp ht0 with hh | hh
              · exact absurd (hh ▸ hcrt) hnc
              · exact hres.2 t0 hh hnc
        · rw [if_neg hag] at h
          simp at h
      · rw [if_neg hdep] at h
        cases hrec : onePass cfg agents allowed created rest with
        | error e => rw [hrec] at h; simp at h
        | ok tri =>
            obtain ⟨c2, r2, p2⟩ := tri
            rw [hrec] at h
            simp only [Except.ok.injEq, Prod.mk.injEq] at h
            obtain ⟨h1, h2, _⟩ := h
            subst h1; subst h2
            have hres := ih created c2 r2 p2 hrec hcr
              (fun x hx => hreq x (List.mem_cons_of_mem t hx))
            refine ⟨hres.1, ?_⟩
            intro t0 ht0 hnc
            rcases List.mem_cons.mp ht0 with hh | hh
            · exact hh ▸ List.mem_cons_self t r2
            · exact List.mem_cons_of_mem t (hres.2 t0 hh hnc)

/-- The remainder a pass keeps comes from its input remainder. -/
theorem onePass_rem_subset (cfg : List (String × TaskCfg)) (agents : List String)
    (allowed : Option (List String)) :
    ∀ (remaining : List String) (created c : List (String × List String))
      (r : List String) (prog : Bool),
      onePass cfg agents allowed created remaining = Except.ok (c, r, prog) →
      ∀ x ∈ r, x ∈ remaining := by
  intro remaining
  induction remaining with
  | nil =>
      intro created c r prog h
      simp only [onePass, Except.ok.injEq, Prod.mk.injEq] at h
      obtain ⟨_, h2, _⟩ := h
      subst h2
      intro x hx; cases hx
  | cons t rest ih =>
      intro created c r prog h
      simp only [onePass] at h
      by_cases hdep : (filterCtx allowed (rawContext cfg t)).all
          (fun cc => created.any (fun p => p.1 == cc)) = true
      · rw [if_pos hdep] at h
        by_cases hag : agents.contains (rawAgent cfg t) = true
        · rw [if_pos hag] at h
          cases hrec : onePass cfg agents allowed
              (created ++ [(t, filterCtx allowed (rawContext cfg t))]) rest with
          | error e => rw [hrec] at h; simp at h
          | ok tri =>
              obtain ⟨c2, r2, p2⟩ := tri
              rw [hrec] at h
              simp only [Except.ok.injEq, Prod.mk.injEq] at h
              obtain ⟨_, h2, _⟩ := h
              subst h2
              exact fun x hx => List.mem_cons_of_mem t (ih _ c2 r2 p2 hrec x hx)
        · rw [if_neg hag] at h
          simp at h
      · rw [if_neg hdep] at h
        cases hrec : onePass cfg agents allowed created rest with
        | error e => rw [hrec] at h; simp at h
        | ok tri =>
            obtain ⟨c2, r2, p2⟩ := tri
            rw [hrec] at h
            simp only [Except.ok.injEq, Prod.mk.injEq] at h
            obtain ⟨_, h2, _⟩ := h
            subst h2
            intro x hx
            rcases List.mem_cons.mp hx with hh | hh
            · exact hh ▸ List.mem_cons_self t rest
            · exact List.mem_cons_of_mem t (ih created c2 r2 p2 hrec x hh)

/-- When some remaining task is not creatable (and all agent keys resolve),
the loop ends in the cycle-or-missing error, whose blocked set still contains
that task. -/
theorem createLoop_blocked (cfg : List (String × TaskCfg)) (agents : List String)
    (allowed : Option (List String)) :
    ∀ (fuel : Nat) (remaining : List String) (created : List (String × List String))
      (t0 : String),
      (∀ x ∈ requestedTasks cfg allowed, agents.contains (rawAgent cfg x) = true) →
      (∀ x ∈ remaining, x ∈ requestedTasks cfg allowed) →
      (∀ p ∈ created, Creatable cfg allowed p.1) →
      t0 ∈ remaining → ¬ Creatable cfg allowed t0 →
      ∃ rem2, createLoop cfg agents allowed fuel created remaining
          = Except.error (CreateError.cycleOrMissing (blockedOf cfg rem2))
        ∧ t0 ∈ rem2 ∧ (∀ x ∈ rem2, x ∈ requestedTasks cfg allowed) := by
  intro fuel
  induction fuel with
  | zero =>
      intro remaining created t0 hag hreq hcr ht0 hnc
      cases remaining with
      | nil => cases ht0
      | cons a l => exact ⟨a :: l, rfl, ht0, hreq⟩
  | succ n ih =>
      intro remaining created t0 hag hreq hcr ht0 hnc
      cases remaining with
      | nil => cases ht0
      | cons a l =>
          obtain ⟨c, r, prog, hrec⟩ := onePass_no_error cfg agents allowed (a :: l)
            created (fun x hx => hag x (hreq x hx))
          have hsound := onePass_sound cfg agents allowed (a :: l) created c r prog
            hrec hcr hreq
          have hrsub := onePass_rem_subset cfg agents allowed (a :: l) created c r
            prog hrec
          have ht0r : t0 ∈ r := hsound.2 t0 ht0 hnc
          have hreq2 : ∀ x ∈ r, x ∈ requestedTasks cfg allowed :=
            fun x hx => hreq x (hrsub x hx)
          cases prog with
          | true =>
              obtain ⟨rem2, heq, hmem, hsub⟩ := ih r c t0 hag hreq2 hsound.1 ht0r hnc
              refine ⟨rem2, ?_, hmem, hsub⟩
              simp only [createLoop]
              rw [hrec]
              simpa using heq
          | false =>
              refine ⟨r, ?_, ht0r, hreq2⟩
              simp only [createLoop]
              rw [hrec]
              simp

/-- Claim C5. If the requested task set has a non-creatable member — a
dependency cycle or a filtered reference that cannot resolve — and all agent
keys are known, then `create_tasks` raises the cycle-or-missing error naming
a nonempty set of blocked requested tasks, each with its dependency list
(which contains its unmet dependencies); in particular no partial task set
is returned. -/
theorem cycle_or_missing_raises (cfg : List (String × TaskCfg)) (agents : List String)
    (allowed : Option (List String)) (t0 : String)
    (hagents : ∀ x ∈ requestedTasks cfg allowed, agents.contains (rawAgent cfg x) = true)
    (ht0 : t0 ∈ requestedTasks cfg allowed)
    (hnc : ¬ Creatable cfg allowed t0) :
    ∃ blocked, createTasks cfg agents allowed
        = Except.error (CreateError.cycleOrMissing blocked)
      ∧ t0 ∈ blocked.map Prod.fst
      ∧ blocked ≠ []
      ∧ ∀ b ∈ blocked, b.1 ∈ requestedTasks cfg allowed ∧ b.2 = rawContext cfg b.1 := by
  obtain ⟨rem2, heq, hmem, hsub⟩ := createLoop_blocked cfg agents allowed
    (requestedTasks cfg allowed).length (requestedTasks cfg allowed) [] t0 hagents
    (fun x hx => hx) (by intro p hp; cases hp) ht0 hnc
  refine ⟨blockedOf cfg rem2, heq, ?_, ?_, ?_⟩
  · simp only [blockedOf, List.map_map]
    simpa using List.mem_map_of_mem (fun t => t) hmem
  · intro hempty
    rw [blockedOf, List.map_eq_nil_iff] at hempty
    exact absurd (hempty ▸ hmem) (by intro hx; cases hx)
  · intro b hb
    obtain ⟨x, hx, hbe⟩ := List.mem_map.mp hb
    subst hbe
    exact ⟨hsub x hx, rfl⟩

/-- Witness for C5 at the spec's cyclic example `A:[B], B:[A]`. -/
theorem cycle_or_missing_raises_witness :
    ∃ blocked, createTasks cfgCycle [("orchestrator")] none
        = Except.error (CreateError.cycleOrMissing blocked)
      ∧ ("A") ∈ blocked.map Prod.fst
      ∧ blocked ≠ []
      ∧ ∀ b ∈ blocked, b.1 ∈ requestedTasks cfgCycle none
          ∧ b.2 = rawContext cfgCycle b.1 := by
  apply cycle_or_missing_raises cfgCycle [("orchestrator")] none ("A")
  · decide
  · decide
  · intro hC
    have key : ∀ t, Creatable cfgCycle none t → False := by
      intro t h
      induction h with
      | make t ht hdeps ih =>
          have hreq2 : requestedTasks cfgCycle none = [("A"), ("B")] := by decide
          rw [hreq2] at ht
          simp only [List.mem_cons, List.mem_singleton] at ht
          rcases ht with hh | hh
          · subst hh
            exact ih ("B") (by decide)
          · rcases hh with hh | hh
            · subst hh
              exact ih ("A") (by decide)
            · cases hh
    exact key ("A") hC

/-- Assigning a key rewrites exactly that key's value. -/
theorem lookup_setField_same (k : String) (v : JValue) :
    ∀ f : List (String × JValue),
      lookupField (setField f k v) k = (lookupField f k).map (fun _ => v) := by
  intro f
  induction f with
  | nil => rfl
  | cons p rest ih =>
      obtain ⟨k2, w⟩ := p
      by_cases hk : k2 = k
      · subst hk
        simp [setField, lookupField]
      · simp [setField, lookupField, hk, ih]

/-- Assigning a key leaves other keys' lookups unchanged. -/
theorem lookup_setField_ne (k k2 : String) (v : JValue) (h : k ≠ k2) :
    ∀ f : List (String × JValue),
      lookupField (setField f k v) k2 = lookupField f k2 := by
  intro f
  induction f with
  | nil => rfl
  | cons p rest ih =>
      obtain ⟨k3, w⟩ := p
      by_cases hk : k3 = k
      · subst hk
        simp [setField, lookupField, h, ih]
      · by_cases hk2 : k3 = k2
        · subst hk2
          simp [setField, lookupField, hk, ih]
        · simp [setField, lookupField, hk, hk2, ih]

/-- After a forced cut, the cut key holds a list no longer than its bound
(either it was cut, or it was already within bounds). -/
theorem cutListField_self_bound (f : List (String × JValue)) (k : String)
    (maxLen : Nat) (l : List JValue)
    (h : lookupField (cutListField f k maxLen).1 k = some (JValue.arr l)) :
    l.length ≤ maxLen := by
  cases hl : lookupField f k with
  | none =>
      have hcut : cutListField f k maxLen = (f, false) := by
        unfold cutListField
        rw [hl]
      rw [hcut] at h
      have h2 : lookupField f k = some (JValue.arr l) := h
      rw [hl] at h2
      cases h2
  | some v =>
      cases v with
      | arr xs =>
          have hcut : cutListField f k maxLen
              = if xs.length > maxLen
                then (setField f k (JValue.arr (xs.take maxLen)), true)
                else (f, false) := by
            unfold cutListField
            rw [hl]
          by_cases hlen : xs.length > maxLen
          · rw [hcut, if_pos hlen] at h
            have h2 : lookupField (setField f k (JValue.arr (xs.take maxLen))) k
                = some (JValue.arr l) := h
            rw [lookup_setField_same, hl] at h2
            have h3 : JValue.arr (xs.take maxLen) = JValue.arr l := Option.some.inj h2
            have hx : xs.take maxLen = l := by injection h3
            subst hx
            simp
          · rw [hcut, if_neg hlen] at h
            have h2 : lookupField f k = some (JValue.arr l) := h
            rw [hl] at h2
            have h3 : JValue.arr xs = JValue.arr l := Option.some.inj h2
            have hx : xs = l := by injection h3
            subst hx
            omega
      | null =>
          have hcut : cutListField f k maxLen = (f, false) := by
            unfold cutListField
            rw [hl]
          rw [hcut] at h
          have h2 : lookupField f k = some (JValue.arr l) := h
          rw [hl] at h2
          have h3 : JValue.null = JValue.arr l := Option.some.inj h2
          cases h3
      | boolean b =>
          have hcut : cutListField f k maxLen = (f, false) := by
            unfold cutListField
            rw [hl]
          rw [hcut] at h
          have h2 : lookupField f k = some (JValue.arr l) := h
          rw [hl] at h2
          have h3 : JValue.boolean b = JValue.arr l := Option.some.inj h2
          cases h3
      | num n =>
          have hcut : cutListField f k maxLen = (f, false) := by
            unfold cutListField
            rw [hl]
          rw [hcut] at h
          have h2 : lookupField f k = some (JValue.arr l) := h
          rw [hl] at h2
          have h3 : JValue.num n = JValue.arr l := Option.some.inj h2
          cases h3
      | str st =>
          have hcut : cutListField f k maxLen = (f, false) := by
            unfold cutListField
            rw [hl]
          rw [hcut] at h
          have h2 : lookupField f k = some (JValue.arr l) := h
          rw [hl] at h2
          have h3 : JValue.str st = JValue.arr l := Option.some.inj h2
          cases h3
      | obj fo =>
          have hcut : cutListField f k maxLen = (f, false) := by
            unfold cutListField
            rw [hl]
          rw [hcut] at h
          have h2 : lookupField f k = some (JValue.arr l) := h
          rw [hl] at h2
          have h3 : JValue.obj fo = JValue.arr l := Option.some.inj h2
          cases h3

/-- A forced cut of one key leaves other keys' lookups unchanged. -/
theorem cutListField_other (f : List (String × JValue)) (k : String)
    (maxLen : Nat) (k2 : String) (h : k ≠ k2) :
    lookupField (cutListField f k maxLen).1 k2 = lookupField f k2 := by
  cases hl : lookupField f k with
  | none =>
      have hcut : cutListField f k maxLen = (f, false) := by
        unfold cutListField
        rw [hl]
      rw [hcut]
  | some v =>
      cases v with
      | arr xs =>
          have hcut : cutListField f k maxLen
              = if xs.length > maxLen
                then (setField f k (JValue.arr (xs.take maxLen)), true)
                else (f, false) := by
            unfold cutListField
            rw [hl]
          by_cases hlen : xs.length > maxLen
          · rw [hcut, if_pos hlen]
            exact lookup_setField_ne k k2 (JValue.arr (xs.take maxLen)) h f
          · rw [hcut, if_neg hlen]
      | null =>
          have hcut : cutListField f k maxLen = (f, false) := by
            unfold cutListField
            rw [hl]
          rw [hcut]
      | boolean b =>
          have hcut : cutListField f k maxLen = (f, false) := by
            unfold cutListField
            rw [hl]
          rw [hcut]
      | num n =>
          have hcut : cutListField f k maxLen = (f, false) := by
            unfold cutListField
            rw [hl]
          rw [hcut]
      | str st =>
          have hcut : cutListField f k maxLen = (f, false) := by
            unfold cutListField
            rw [hl]
          rw [hcut]
      | obj fo =>
          have hcut : cutListField f k maxLen = (f, false) := by
            unfold cutListField
            rw [hl]
          rw [hcut]

/-- The truncation flag of a forced cut is set exactly when the key held a
list longer than the bound. -/
theorem cutListField_flag (f : List (String × JValue)) (k : String) (maxLen : Nat) :
    (cutListField f k maxLen).2 = true
      ↔ ∃ xs, lookupField f k = some (JValue.arr xs) ∧ xs.length > maxLen := by
  constructor
  · intro hflag
    cases hl : lookupField f k with
    | none =>
        have hcut : cutListField f k maxLen = (f, false) := by
          unfold cutListField
          rw [hl]
        rw [hcut] at hflag
        cases hflag
    | some v =>
        cases v with
        | arr xs =>
            have hcut : cutListField f k maxLen
                = if xs.length > maxLen
                  then (setField f k (JValue.arr (xs.take maxLen)), true)
                  else (f, false) := by
              unfold cutListField
              rw [hl]
            by_cases hlen : xs.length > maxLen
            · exact ⟨xs, rfl, hlen⟩
            · rw [hcut, if_neg hlen] at hflag
              cases hflag
        | null =>
            have hcut : cutListField f k maxLen = (f, false) := by
              unfold cutListField
              rw [hl]
            rw [hcut] at hflag
            cases hflag
        | boolean b =>
            have hcut : cutListField f k maxLen = (f, false) := by
              unfold cutListField
              rw [hl]
            rw [hcut] at hflag
            cases hflag
        | num n =>
            have hcut : cutListField f k maxLen = (f, false) := by
              unfold cutListField
              rw [hl]
            rw [hcut] at hflag
            cases hflag
        | str st =>
            have hcut : cutListField f k maxLen = (f, false) := by
              unfold cutListField
              rw [hl]
            rw [hcut] at hflag
            cases hflag
        | obj fo =>
            have hcut : cutListField f k maxLen = (f, false) := by
              unfold cutListField
              rw [hl]
            rw [hcut] at hflag
            cases hflag
  · rintro ⟨xs, hl, hlen⟩
    have hc : cutListField f k maxLen
        = if xs.length > maxLen
          then (setField f k (JValue.arr (xs.take maxLen)), true)
          else (f, false) := by
      unfold cutListField
      rw [hl]
    rw [hc, if_pos hlen]

/-- A successful notes loop preserves the `items` list length and every
other key's lookup. -/
theorem applyNotesLoop_ok (f f2 : List (String × JValue))
    (h : applyNotesLoop f = Except.ok f2) :
    (∀ l, lookupField f2 ("items") = some (JValue.arr l) →
      ∃ xs, lookupField f ("items") = some (JValue.arr xs) ∧ xs.length = l.length)
    ∧ ∀ k2, k2 ≠ ("items") → lookupField f2 k2 = lookupField f k2 := by
  cases hl : lookupField f ("items") with
  | none =>
      have hrun : applyNotesLoop f = Except.ok f := by
        unfold applyNotesLoop
        rw [hl]
      rw [hrun] at h
      have hf : f = f2 := by injection h
      subst hf
      refine ⟨?_, fun k2 _ => rfl⟩
      intro l hll
      rw [hl] at hll
      cases hll
  | some v =>
      cases v with
      | arr xs =>
          have hrun : applyNotesLoop f
              = Except.ok (setField f ("items") (JValue.arr (xs.map shortenNotes))) := by
            unfold applyNotesLoop
            rw [hl]
          rw [hrun] at h
          have hf : setField f ("items") (JValue.arr (xs.map shortenNotes)) = f2 := by
            injection h
          subst hf
          constructor
          · intro l hll
            rw [lookup_setField_same, hl] at hll
            have h2 : JValue.arr (xs.map shortenNotes) = JValue.arr l := Option.some.inj hll
            have hx : xs.map shortenNotes = l := by injection h2
            refine ⟨xs, rfl, ?_⟩
            rw [← hx]
            simp
          · intro k2 hk2
            exact lookup_setField_ne ("items") k2 _ (Ne.symm hk2) f
      | str st =>
          have hrun : applyNotesLoop f = Except.ok f := by
            unfold applyNotesLoop
            rw [hl]
          rw [hrun] at h
          have hf : f = f2 := by injection h
          subst hf
          refine ⟨?_, fun k2 _ => rfl⟩
          intro l hll
          rw [hl] at hll
          have h2 : JValue.str st = JValue.arr l := Option.some.inj hll
          cases h2
      | obj fo =>
          have hrun : applyNotesLoop f = Except.ok f := by
            unfold applyNotesLoop
            rw [hl]
          rw [hrun] at h
          have hf : f = f2 := by injection h
          subst hf
          refine ⟨?_, fun k2 _ => rfl⟩
          intro l hll
          rw [hl] at hll
          have h2 : JValue.obj fo = JValue.arr l := Option.some.inj hll
          cases h2
      | null =>
          have hrun : applyNotesLoop f = Except.error PyErr.typeError := by
            unfold applyNotesLoop
            rw [hl]
          rw [hrun] at h
          exact Except.noConfusion h
      | boolean b =>
          have hrun : applyNotesLoop f = Except.error PyErr.typeError := by
            unfold applyNotesLoop
            rw [hl]
          rw [hrun] at h
          exact Except.noConfusion h
      | num n =>
          have hrun : applyNotesLoop f = Except.error PyErr.typeError := by
            unfold applyNotesLoop
            rw [hl]
          rw [hrun] at h
          exact Except.noConfusion h

/-- Claim C10 (counterexample). On the fenced output containing only the
JSON array text `[1, 2]` no JSON object can be parsed (the candidate parses
to an array), yet the function raises `AttributeError` at
`data.get("items", [])` instead of returning the input unchanged with
`was_truncated = False`. The parse oracle is `json.loads` restricted to the
one candidate string the code produces. -/
theorem compact_nonobject_raises :
    compactCompetitorsOutput
      (fun s => if s = ("[1, 2]")
        then some (JValue.arr [JValue.num 1, JValue.num 2]) else none)
      (fun _ => (""))
      ("```json\n[1, 2]\n```")
      = Except.error PyErr.attributeError
    ∧ compactCompetitorsOutput
      (fun s => if s = ("[1, 2]")
        then some (JValue.arr [JValue.num 1, JValue.num 2]) else none)
      (fun _ => (""))
      ("```json\n[1, 2]\n```")
      ≠ Except.ok (("```json\n[1, 2]\n```"), false) := by
  have h1 : compactCompetitorsOutput
      (fun s => if s = ("[1, 2]")
        then some (JValue.arr [JValue.num 1, JValue.num 2]) else none)
      (fun _ => (""))
      ("```json\n[1, 2]\n```")
      = Except.error PyErr.attributeError := rfl
  refine ⟨h1, ?_⟩
  rw [h1]
  simp

/-- Claim C10 (amended). With no JSON candidate or an unparsable candidate
the input is returned unchanged with `was_truncated = False`; when the
candidate parses to a JSON object (and its `items` member, if present, is a
list, a string, an object or absent, so the notes loop succeeds), the
compacted object's `items` list has at most 8 elements, its `candidates`
list at most 15, and `was_truncated` is true exactly when at least one of
the two lists was cut. A parsed non-object raises instead (see the
counterexample). -/
theorem compact_competitors_bounds (parse : String → Option JValue)
    (dumps : JValue → String) (raw : String) :
    (extractJsonStr raw = none →
      compactCompetitorsOutput parse dumps raw = Except.ok (raw, false))
    ∧ (∀ js, extractJsonStr raw = some js → parse js = none →
      compactCompetitorsOutput parse dumps raw = Except.ok (raw, false))
    ∧ (∀ js fields, extractJsonStr raw = some js →
      parse js = some (JValue.obj fields) →
      ∀ fields2,
        applyNotesLoop (cutListField (cutListField fields ("items")
            MAX_COMPETITORS_ITEMS).1 ("candidates") MAX_COMPETITORS_CANDIDATES).1
          = Except.ok fields2 →
        compactCompetitorsOutput parse dumps raw
            = Except.ok (("```json\n") ++ dumps (JValue.obj fields2) ++ ("\n```"),
                (cutListField fields ("items") MAX_COMPETITORS_ITEMS).2
                || (cutListField (cutListField fields ("items")
                    MAX_COMPETITORS_ITEMS).1 ("candidates")
                    MAX_COMPETITORS_CANDIDATES).2)
        ∧ (∀ l, lookupField fields2 ("items") = some (JValue.arr l) →
            l.length ≤ MAX_COMPETITORS_ITEMS)
        ∧ (∀ l, lookupField fields2 ("candidates") = some (JValue.arr l) →
            l.length ≤ MAX_COMPETITORS_CANDIDATES)
        ∧ (((cutListField fields ("items") MAX_COMPETITORS_ITEMS).2
            || (cutListField (cutListField fields ("items")
                MAX_COMPETITORS_ITEMS).1 ("candidates")
                MAX_COMPETITORS_CANDIDATES).2) = true
          ↔ ((∃ xs, lookupField fields ("items") = some (JValue.arr xs)
                ∧ xs.length > MAX_COMPETITORS_ITEMS)
            ∨ (∃ xs, lookupField fields ("candidates") = some (JValue.arr xs)
                ∧ xs.length > MAX_COMPETITORS_CANDIDATES)))) := by
  refine ⟨?_, ?_, ?_⟩
  · intro hx
    unfold compactCompetitorsOutput
    rw [hx]
  · intro js hx hp
    unfold compactCompetitorsOutput
    rw [hx]
    show (match parse js with
      | none => Except.ok (raw, false)
      | some (JValue.obj fields) =>
          let r1 := cutListField fields ("items") MAX_COMPETITORS_ITEMS
          let r2 := cutListField r1.1 ("candidates") MAX_COMPETITORS_CANDIDATES
          match applyNotesLoop r2.1 with
          | Except.error e => Except.error e
          | Except.ok fields2 =>
              Except.ok (("```json\n") ++ dumps (JValue.obj fields2) ++ ("\n```"),
                r1.2 || r2.2)
      | some v => Except.error (compactNonDict v)) = Except.ok (raw, false)
    rw [hp]
  · intro js fields hx hp fields2 happly
    have hitems : ("items") ≠ ("candidates") := by decide
    refine ⟨?_, ?_, ?_, ?_⟩
    · have hrun : compactCompetitorsOutput parse dumps raw
          = (match applyNotesLoop (cutListField (cutListField fields ("items")
              MAX_COMPETITORS_ITEMS).1 ("candidates") MAX_COMPETITORS_CANDIDATES).1 with
            | Except.error e => Except.error e
            | Except.ok fields3 =>
                Except.ok (("```json\n") ++ dumps (JValue.obj fields3) ++ ("\n```"),
                  (cutListField fields ("items") MAX_COMPETITORS_ITEMS).2
                  || (cutListField (cutListField fields ("items")
                      MAX_COMPETITORS_ITEMS).1 ("candidates")
                      MAX_COMPETITORS_CANDIDATES).2)) := by
        unfold compactCompetitorsOutput
        rw [hx]
        show (match parse js with
      | none => Except.ok (raw, false)
      | some (JValue.obj fields) =>
          let r1 := cutListField fields ("items") MAX_COMPETITORS_ITEMS
          let r2 := cutListField r1.1 ("candidates") MAX_COMPETITORS_CANDIDATES
          match applyNotesLoop r2.1 with
          | Except.error e => Except.error e
          | Except.ok fields2 =>
              Except.ok (("```json\n") ++ dumps (JValue.obj fields2) ++ ("\n```"),
                r1.2 || r2.2)
      | some v => Except.error (compactNonDict v)) = _
        rw [hp]
      rw [hrun, happly]
    · intro l hl
      obtain ⟨xs, hx2, hlen⟩ := (applyNotesLoop_ok _ _ happly).1 l hl
      rw [cutListField_other _ _ _ _ (Ne.symm hitems)] at hx2
      have := cutListField_self_bound fields ("items") MAX_COMPETITORS_ITEMS xs hx2
      omega
    · intro l hl
      rw [(applyNotesLoop_ok _ _ happly).2 ("candidates") (Ne.symm hitems)] at hl
      exact cutListField_self_bound _ ("candidates") MAX_COMPETITORS_CANDIDATES l hl
    · have hco := cutListField_other fields ("items") MAX_COMPETITORS_ITEMS
        ("candidates") hitems
      simp only [Bool.or_eq_true, cutListField_flag, hco]

/-- Witness for the amended C10 theorem: an object with nine items and no
candidates gets its items cut to eight and reports truncation. -/
theorem compact_competitors_bounds_witness :
    compactCompetitorsOutput
      (fun s => if s = ("K")
        then some (JValue.obj
          [(("items"), JValue.arr (List.replicate 9 (JValue.num 0))),
           (("candidates"), JValue.arr [])])
        else none)
      (fun _ => ("D"))
      ("```json\nK\n```")
      = Except.ok (("```json\n") ++ ("D") ++ ("\n```"), true) := by
  have h := (compact_competitors_bounds
      (fun s => if s = ("K")
        then some (JValue.obj
          [(("items"), JValue.arr (List.replicate 9 (JValue.num 0))),
           (("candidates"), JValue.arr [])])
        else none)
      (fun _ => ("D"))
      ("```json\nK\n```")).2.2 ("K")
      [(("items"), JValue.arr (List.replicate 9 (JValue.num 0))),
       (("candidates"), JValue.arr [])]
      rfl rfl
      [(("items"), JValue.arr (List.replicate 8 (JValue.num 0))),
       (("candidates"), JValue.arr [])]
      rfl
  exact h.1

end GapFoundry
